import Mathlib

/-!
Verification of the devbird-action repository (prepare and postprocess CI
steps) against its natural-language specification.

The two entry points are shallowly embedded as pure functions from an
environment record (the values of the action inputs and the outcomes of the
external effects: HTTP calls, shell commands, file reads) to a terminal
state together with a trace of observable events (log calls at their
levels, published outputs, exported variables, outbound POSTs).

Strings manipulated by the embedded code are modelled as lists of
characters (`Str`), so that every definition is executable by the kernel.
-/

namespace DevBird

/-- Strings of the embedded program, as lists of characters. -/
abbrev Str := List Char

/-- Model of JavaScript's `String.prototype.trim()` (restricted to the ASCII
whitespace characters that `Char.isWhitespace` recognises, which covers
every character a branch listing or action input can realistically hold). -/
def trimStr (s : Str) : Str :=
  ((s.dropWhile Char.isWhitespace).reverse.dropWhile Char.isWhitespace).reverse

/-- Model of JavaScript's `String.prototype.split(sep)` for a one-character
separator: `splitOnChar c s` returns the chunks of `s` between occurrences
of `c`, keeping empty chunks exactly as JS does. -/
def splitOnChar (sep : Char) : Str → List Str
  | [] => [[]]
  | c :: cs =>
    if c = sep then [] :: splitOnChar sep cs
    else
      match splitOnChar sep cs with
      | [] => [[c]]
      | h :: t => (c :: h) :: t

/-- Raw output of a shell command that prints the given lines: each line is
followed by a newline character. -/
def linesRaw (ls : List Str) : Str :=
  (ls.map (fun l => l ++ [ '\n' ])).flatten

/-- The given lines joined by single newline characters (no trailing one). -/
def joinSep : List Str → Str
  | [] => []
  | [x] => x
  | x :: y :: t => x ++ '\n' :: joinSep (y :: t)

/-- Model of the JavaScript post-processing applied to a command's raw
output in `postprocess.ts` (both for `git branch` and for `ls PLAN-*.yaml`):
trim the whole output, treat an empty result as no entries, otherwise split
on newlines, trim each entry and drop the empty ones. -/
def processOutput (raw : Str) : List Str :=
  let t := trimStr raw
  if t = [] then []
  else ((splitOnChar '\n' t).map trimStr).filter (fun x => x ≠ [])

/-- Atoms of the POSIX basic regular expressions that can arise from
interpolating a base-branch name into `grep -v '^<base>$'` in
`postprocess.ts` line 76: a literal character or the metacharacter `.`. -/
inductive Atom
  | lit (c : Char)
  | dot
deriving DecidableEq

/-- A pattern character that is not escaped: `.` is the any-character atom,
everything else matches itself. -/
def mkAtom (c : Char) : Atom := if c = '.' then Atom.dot else Atom.lit c

/-- Parse a BRE body into a sequence of atoms, each possibly starred.
A backslash escapes the following character; a `*` after an atom stars it.
This covers the BRE constructs expressible by interpolated branch names
apart from bracket expressions. -/
def parsePat : Str → List (Atom × Bool)
  | [] => []
  | '\\' :: c :: '*' :: rest => (Atom.lit c, true) :: parsePat rest
  | '\\' :: c :: rest => (Atom.lit c, false) :: parsePat rest
  | c :: '*' :: rest => (mkAtom c, true) :: parsePat rest
  | c :: rest => (mkAtom c, false) :: parsePat rest

/-- Does an atom match one character? -/
def atomMatch : Atom → Char → Bool
  | Atom.dot, _ => true
  | Atom.lit c, d => c = d

/-- One step of the NFA simulation: the pattern suffixes reachable from the
given pattern suffix after consuming the character `c`. -/
def consume (c : Char) : List (Atom × Bool) → List (List (Atom × Bool))
  | [] => []
  | (a, false) :: ps => if atomMatch a c then [ps] else []
  | (a, true) :: ps =>
    (if atomMatch a c then [(a, true) :: ps] else []) ++ consume c ps

/-- Can a pattern suffix match the empty string? -/
def nullablePat : List (Atom × Bool) → Bool
  | [] => true
  | (_, true) :: ps => nullablePat ps
  | (_, false) :: _ => false

/-- NFA simulation of matching: run the set of live pattern suffixes over
the string and accept if some final suffix is nullable. -/
def runMatch : List (List (Atom × Bool)) → Str → Bool
  | states, [] => states.any nullablePat
  | states, c :: cs => runMatch (states.flatMap (consume c)) cs

/-- Whole-line match of the anchored pattern `^<pat>$` that
`grep -v '^<base>$'` applies to each listed branch line. -/
def breFullMatch (pat line : Str) : Bool :=
  runMatch [parsePat pat] line

/-- The all-literal, unstarred pattern a metacharacter-free base branch
parses to. -/
def litPat (s : Str) : List (Atom × Bool) := s.map (fun c => (Atom.lit c, false))

/-- The character list of the literal `main`. -/
def mainStr : Str := [ 'm', 'a', 'i', 'n' ]

/-- The character list of the literal `plan`. -/
def planStr : Str := [ 'p', 'l', 'a', 'n' ]

/-- The character list of the literal `develop`. -/
def developStr : Str := [ 'd', 'e', 'v', 'e', 'l', 'o', 'p' ]

/-- The lines kept by `grep -v '^<base>$'`: those the anchored pattern does
not match. -/
def grepExclude (base : Str) (lines : List Str) : List Str :=
  lines.filter (fun l => ! breFullMatch base l)

/-- Pure model of the branch-detection pipeline of `detectBranches` in
`postprocess.ts` lines 75-87: default the base branch to `main`, run
`git branch --format=... | grep -v '^base$' | head -20` over the listing
lines, then apply the JavaScript trim/split/trim/filter processing. -/
def detectBranchesFn (listing : List Str) (baseInput : Str) : List Str :=
  let base := if baseInput = [] then mainStr else baseInput
  processOutput (linesRaw ((grepExclude base listing).take 20))

/-- A line is well formed when it is nonempty and holds no whitespace
characters; the lines of `git branch --format=%(refname:short)` and of
`ls PLAN-*.yaml` are of this shape, since git refnames and the matched file
names cannot contain whitespace. -/
def wfLine (l : Str) : Prop := l ≠ [] ∧ ∀ c ∈ l, c.isWhitespace = false

/-- All lines of a listing are well formed. -/
def wfLines (ls : List Str) : Prop := ∀ l ∈ ls, wfLine l

instance (l : Str) : Decidable (wfLine l) := by unfold wfLine; infer_instance

instance (ls : List Str) : Decidable (wfLines ls) := by
  unfold wfLines; infer_instance

/-- A base-branch string free of every BRE metacharacter, so that the
anchored grep pattern built from it matches exactly the string itself. -/
def noMeta (s : Str) : Prop :=
  ∀ c ∈ s, c ≠ '.' ∧ c ≠ '*' ∧ c ≠ '\\' ∧ c ≠ '[' ∧ c ≠ ']' ∧ c ≠ '^' ∧ c ≠ '$'

instance (s : Str) : Decidable (noMeta s) := by unfold noMeta; infer_instance

/-- Outcome of `JSON.parse` on a response body: either it throws
(`malformed`) or it yields a value of the expected shape. -/
inductive ParseOutcome (α : Type)
  | malformed
  | ok (val : α)
deriving DecidableEq

/-- A completed HTTP exchange: the status code of the response and what
parsing its body would produce. -/
structure HttpResult (α : Type) where
  status : Nat
  parsed : ParseOutcome α
deriving DecidableEq

/-- Outcome of one `http.post` + `readBody` round trip: the awaited call
either throws (network failure, read failure) or completes. -/
abbrev CallOutcome (α : Type) := Except Unit (HttpResult α)

instance {ε α : Type} [DecidableEq ε] [DecidableEq α] : DecidableEq (Except ε α) :=
  fun a b =>
    match a, b with
    | Except.error e, Except.error f =>
      if h : e = f then isTrue (by rw [h]) else isFalse (by intro hh; injection hh; contradiction)
    | Except.error _, Except.ok _ => isFalse (fun hh => Except.noConfusion hh)
    | Except.ok _, Except.error _ => isFalse (fun hh => Except.noConfusion hh)
    | Except.ok x, Except.ok y =>
      if h : x = y then isTrue (by rw [h]) else isFalse (by intro hh; injection hh; contradiction)

/-- Parsed JSON body of the link endpoints: `{success, message}`. -/
structure LinkBody where
  success : Bool
  message : Str
deriving DecidableEq

/-- Parsed JSON body of `RegisterBranchesByToken`:
`{success, message, registered_pull_requests}`. -/
structure RegisterBody where
  success : Bool
  message : Str
  registered_pull_requests : List Str
deriving DecidableEq

/-- Parsed JSON body of `UploadTaskGraphPlanByToken`: `{success, message}`. -/
structure PlanBody where
  success : Bool
  message : Str
deriving DecidableEq

/-- Parsed JSON body of `ExchangeOIDCTokenForGitHubToken`:
`{success, githubToken}` (a missing or empty token field is the empty
string, matching JavaScript falsiness of `result.githubToken`). -/
structure ExchangeBody where
  success : Bool
  githubToken : Str
deriving DecidableEq

/-- Messages of the errors that can reach the top-level catch of either
entry point; `core.setFailed` receives the corresponding message. The
`missing*` errors are thrown by `core.getInput` with `required: true`
(message `Input required and not supplied: <name>`); the `link*` errors are
thrown inside postprocess's `linkGitHubAction`, which has no catch of its
own. -/
inductive Err
  | missingWorkflowToken
  | missingAccessToken
  | missingAgent
  | linkHttpThrown
  | linkParseFailed
deriving DecidableEq

/-- Terminal state of one invocation: `success` when `run` returns without
reaching the top-level catch, `failed e` when `core.setFailed` was called
with the message of `e` (non-zero exit status). -/
inductive Term
  | success
  | failed (e : Err)
deriving DecidableEq

/-- Model of `@actions/core`'s `getInput(name, options)`: the raw
environment value (absent means the empty string); when `required` is set
and the raw value is empty it throws `Input required and not supplied`;
otherwise it returns the value with whitespace trimmed. -/
def getInputE (v : Option Str) (required : Bool) : Except Unit Str :=
  let val := v.getD []
  if required ∧ val = [] then Except.error () else Except.ok (trimStr val)

/-- `getInput` for a non-required input: never throws, returns the trimmed
raw value (empty when absent). -/
def getOptInput (v : Option Str) : Str := trimStr (v.getD [])

namespace Postprocess

/-- Environment of one postprocess invocation: the raw action inputs, the
GitHub run id, and the outcomes of every external effect the invocation
could perform (link call, branch listing command and registration call,
plan-file listing, per-file reads and uploads, the latter two indexed by
the file's position in the processed file list). -/
structure Env where
  tokenInput : Option Str
  accessInput : Option Str
  baseBranchInput : Option Str
  modeInput : Option Str
  runId : Str
  linkCall : CallOutcome LinkBody
  branchCmdThrows : Bool
  branchListing : List Str
  branchPost : CallOutcome RegisterBody
  planLsThrows : Bool
  planLsLines : List Str
  planRead : Nat → Except Unit Str
  planPost : Nat → CallOutcome PlanBody

/-- Observable events of a postprocess invocation, one constructor per
`core.info` / `core.warning` call site and per outbound POST of
`postprocess.ts`. -/
inductive Ev
  | warnNoTaskToken
  | infoModePlan
  | infoModeDevelop
  | infoLinking (runId : Str)
  | warnLinkFailedStatus
  | infoLinkSuccess (m : Str)
  | warnLinkFailed (m : Str)
  | infoDetectingBranches
  | infoFoundBranches (bs : List Str)
  | postRegisterBranches (bs : List Str)
  | warnRegisterFailedStatus
  | infoRegisterSuccess (m : Str)
  | infoFoundPRs (n : Nat)
  | warnRegisterFailed (m : Str)
  | warnBranchError
  | infoDetectingPlanFiles
  | infoFoundPlanFile (f : Str)
  | postUploadPlan (f : Str) (content : Str)
  | warnPlanUploadFailedStatus (f : Str)
  | infoPlanUploadSuccess (f : Str) (m : Str)
  | warnPlanUploadFailed (f : Str) (m : Str)
  | warnPlanFileError (f : Str)
  | infoNoPlanFiles
  | warnPlanDetectError
deriving DecidableEq

/-- Does a postprocess event belong to the branch-detection step? -/
def isBranchEv : Ev → Bool
  | Ev.infoDetectingBranches => true
  | Ev.infoFoundBranches _ => true
  | Ev.postRegisterBranches _ => true
  | Ev.warnRegisterFailedStatus => true
  | Ev.infoRegisterSuccess _ => true
  | Ev.infoFoundPRs _ => true
  | Ev.warnRegisterFailed _ => true
  | Ev.warnBranchError => true
  | _ => false

/-- Does a postprocess event belong to the plan-file step? -/
def isPlanEv : Ev → Bool
  | Ev.infoDetectingPlanFiles => true
  | Ev.infoFoundPlanFile _ => true
  | Ev.postUploadPlan _ _ => true
  | Ev.warnPlanUploadFailedStatus _ => true
  | Ev.infoPlanUploadSuccess _ _ => true
  | Ev.warnPlanUploadFailed _ _ => true
  | Ev.warnPlanFileError _ => true
  | Ev.infoNoPlanFiles => true
  | Ev.warnPlanDetectError => true
  | _ => false

/-- Events logged by `linkGitHubAction` (postprocess.ts lines 34-67). The
function has no try/catch: when the call throws or a 200 body fails to
parse, logging stops at the point of the throw. -/
def linkTrace (env : Env) : List Ev :=
  Ev.infoLinking env.runId ::
  match env.linkCall with
  | Except.error _ => []
  | Except.ok r =>
    if r.status ≠ 200 then [Ev.warnLinkFailedStatus]
    else
      match r.parsed with
      | ParseOutcome.malformed => []
      | ParseOutcome.ok b =>
        if b.success then [Ev.infoLinkSuccess b.message]
        else [Ev.warnLinkFailed b.message]

/-- The error `linkGitHubAction` throws, if any: the HTTP call or body read
throwing, or `JSON.parse` throwing on a 200 response body. -/
def linkThrown (env : Env) : Option Err :=
  match env.linkCall with
  | Except.error _ => some Err.linkHttpThrown
  | Except.ok r =>
    if r.status ≠ 200 then none
    else
      match r.parsed with
      | ParseOutcome.malformed => some Err.linkParseFailed
      | ParseOutcome.ok _ => none

/-- Events of `detectBranches` (postprocess.ts lines 69-135): the whole
body sits in one try/catch, so a thrown listing command, a thrown
registration call and a malformed 200 body all end in the same
`Error detecting branches` warning. -/
def branchTrace (env : Env) (baseInput : Str) : List Ev :=
  Ev.infoDetectingBranches ::
  if env.branchCmdThrows then [Ev.warnBranchError]
  else
    let branches := detectBranchesFn env.branchListing baseInput
    Ev.infoFoundBranches branches :: Ev.postRegisterBranches branches ::
    match env.branchPost with
    | Except.error _ => [Ev.warnBranchError]
    | Except.ok r =>
      if r.status ≠ 200 then [Ev.warnRegisterFailedStatus]
      else
        match r.parsed with
        | ParseOutcome.malformed => [Ev.warnBranchError]
        | ParseOutcome.ok b =>
          if b.success then
            Ev.infoRegisterSuccess b.message ::
            (if b.registered_pull_requests ≠ [] then
              [Ev.infoFoundPRs b.registered_pull_requests.length]
            else [])
          else [Ev.warnRegisterFailed b.message]

/-- Events of one iteration of the plan-file loop (postprocess.ts lines
153-204): the iteration body has its own try/catch, so a thrown read, a
thrown upload and a malformed 200 body all end in the per-file
`Error processing plan file` warning, and the loop continues. -/
def planFileTrace (env : Env) (i : Nat) (f : Str) : List Ev :=
  Ev.infoFoundPlanFile f ::
  match env.planRead i with
  | Except.error _ => [Ev.warnPlanFileError f]
  | Except.ok content =>
    Ev.postUploadPlan f content ::
    match env.planPost i with
    | Except.error _ => [Ev.warnPlanFileError f]
    | Except.ok r =>
      if r.status ≠ 200 then [Ev.warnPlanUploadFailedStatus f]
      else
        match r.parsed with
        | ParseOutcome.malformed => [Ev.warnPlanFileError f]
        | ParseOutcome.ok b =>
          if b.success then [Ev.infoPlanUploadSuccess f b.message]
          else [Ev.warnPlanUploadFailed f b.message]

/-- The processed plan-file list: the listing command's output after the
trim/split/trim/filter processing of postprocess.ts lines 145-151. -/
def planFilesOf (env : Env) : List Str :=
  processOutput (linesRaw env.planLsLines)

/-- Events of `uploadPlanFiles` (postprocess.ts lines 137-211). -/
def planTrace (env : Env) : List Ev :=
  Ev.infoDetectingPlanFiles ::
  if env.planLsThrows then [Ev.warnPlanDetectError]
  else
    let t := trimStr (linesRaw env.planLsLines)
    if t = [] then [Ev.infoNoPlanFiles]
    else
      let files := ((splitOnChar '\n' t).map trimStr).filter (fun x => x ≠ [])
      files.enum.flatMap (fun p => planFileTrace env p.1 p.2)

/-- The effective mode of postprocess.ts lines 22-23: the trimmed
`devbird_mode` input, defaulting to `develop` when unset or empty. -/
def effMode (env : Env) : Str :=
  let m := getOptInput env.modeInput
  if m = [] then developStr else m

/-- The postprocess entry point `run` (postprocess.ts lines 6-228) as a
pure function from the environment to the terminal state and the event
trace. The two concurrently started steps are serialised link-first; only
`linkGitHubAction` can throw past `Promise.all`, which the top-level catch
turns into a failed terminal state. -/
def run (env : Env) : Term × List Ev :=
  match getInputE env.tokenInput true with
  | Except.error _ => (Term.failed Err.missingWorkflowToken, [])
  | Except.ok tok =>
    if tok = [] then (Term.success, [Ev.warnNoTaskToken])
    else
      match getInputE env.accessInput true with
      | Except.error _ => (Term.failed Err.missingAccessToken, [])
      | Except.ok _ =>
        let baseInput := getOptInput env.baseBranchInput
        let term := match linkThrown env with
          | some e => Term.failed e
          | none => Term.success
        if effMode env = planStr then
          (term, Ev.infoModePlan :: (linkTrace env ++ planTrace env))
        else
          (term, Ev.infoModeDevelop :: (linkTrace env ++ branchTrace env baseInput))

end Postprocess

namespace Prepare

/-- Environment of one prepare invocation: the raw action inputs, the run
id, the outcome of `core.getIDToken()`, and the outcomes of the exchange
and link calls. -/
structure PEnv where
  tokenInput : Option Str
  accessInput : Option Str
  baseBranchInput : Option Str
  agentInput : Option Str
  agentModelInput : Option Str
  runId : Str
  oidc : Except Unit Str
  exchangeCall : CallOutcome ExchangeBody
  linkCall : CallOutcome LinkBody

/-- Observable events of a prepare invocation, one constructor per
`core.info` / `core.warning` / `core.debug` call site, per published
output or exported variable, and per outbound POST of the prepare source. -/
inductive PEv
  | infoRequestingOIDC
  | infoOIDCObtained
  | postExchange
  | infoExchangeSuccess
  | setSecret (t : Str)
  | exportVar (name val : Str)
  | setOutput (name val : Str)
  | warnExchangeFailedResult
  | warnExchangeFailedStatus (code : Nat)
  | infoOIDCUnavailable
  | debugOIDCError
  | infoPreparing (agent : Str)
  | infoRepository
  | infoBaseBranch
  | infoLinkingRun (runId : Str)
  | postLink
  | infoLinkSuccess (m : Str)
  | warnLinkFailed (m : Str)
  | warnLinkFailedStatus (code : Nat)
  | warnLinkError
  | infoPreparationComplete
deriving DecidableEq

/-- Does a prepare event come from a `core.warning` call? -/
def isWarnP : PEv → Bool
  | PEv.warnExchangeFailedResult => true
  | PEv.warnExchangeFailedStatus _ => true
  | PEv.warnLinkFailed _ => true
  | PEv.warnLinkFailedStatus _ => true
  | PEv.warnLinkError => true
  | _ => false

/-- Output name `workflow_execution_token`. -/
def wetOut : Str := ("workflow_execution_token".data)

/-- Output name `agent`. -/
def agentOut : Str := ("agent".data)

/-- Output name `agent_model`. -/
def agentModelOut : Str := ("agent_model".data)

/-- Output name `githubToken_obtained`. -/
def obtainedOut : Str := ("githubToken_obtained".data)

/-- Output name `github_token`. -/
def ghTokenOut : Str := ("github_token".data)

/-- Exported environment variable name `githubToken`. -/
def ghTokenVar : Str := ("githubToken".data)

/-- The string `true`. -/
def trueStr : Str := ("true".data)

/-- The string `false`. -/
def falseStr : Str := ("false".data)

/-- The OIDC/exchange block of the prepare source (lines 22-77): events
logged and the credential obtained (empty when absent). Every throw inside
the block, including a malformed 200 body, lands in the catch that logs
`core.info` and `core.debug` — not a warning. -/
def oidcResult (env : PEnv) : List PEv × Str :=
  match env.oidc with
  | Except.error _ =>
    ([PEv.infoRequestingOIDC, PEv.infoOIDCUnavailable, PEv.debugOIDCError], [])
  | Except.ok t =>
    if t = [] then ([PEv.infoRequestingOIDC], [])
    else
      match env.exchangeCall with
      | Except.error _ =>
        ([PEv.infoRequestingOIDC, PEv.infoOIDCObtained, PEv.postExchange,
          PEv.infoOIDCUnavailable, PEv.debugOIDCError], [])
      | Except.ok r =>
        if r.status = 200 then
          match r.parsed with
          | ParseOutcome.malformed =>
            ([PEv.infoRequestingOIDC, PEv.infoOIDCObtained, PEv.postExchange,
              PEv.infoOIDCUnavailable, PEv.debugOIDCError], [])
          | ParseOutcome.ok b =>
            if b.success ∧ b.githubToken ≠ [] then
              ([PEv.infoRequestingOIDC, PEv.infoOIDCObtained, PEv.postExchange,
                PEv.infoExchangeSuccess, PEv.setSecret b.githubToken,
                PEv.exportVar ghTokenVar b.githubToken,
                PEv.setOutput ghTokenOut b.githubToken], b.githubToken)
            else
              ([PEv.infoRequestingOIDC, PEv.infoOIDCObtained, PEv.postExchange,
                PEv.warnExchangeFailedResult], [])
        else
          ([PEv.infoRequestingOIDC, PEv.infoOIDCObtained, PEv.postExchange,
            PEv.warnExchangeFailedStatus r.status], [])

/-- Events of the prepare link block (lines 90-129): the call sits in its
own try/catch, so every throw - including a malformed 200 body - becomes
the `Error linking GitHub Action` warning. -/
def linkPTrace (env : PEnv) : List PEv :=
  PEv.infoLinkingRun env.runId :: PEv.postLink ::
  match env.linkCall with
  | Except.error _ => [PEv.warnLinkError]
  | Except.ok r =>
    if r.status = 200 then
      match r.parsed with
      | ParseOutcome.malformed => [PEv.warnLinkError]
      | ParseOutcome.ok b =>
        if b.success then [PEv.infoLinkSuccess b.message]
        else [PEv.warnLinkFailed b.message]
    else [PEv.warnLinkFailedStatus r.status]

/-- The prepare entry point `run` as a pure function from the environment
to the terminal state and the event trace. Inputs are read in source
order (token, access token, base branch, agent, agent model); after the
inputs are read nothing in the body can throw past its local handlers, so
the terminal state is success. -/
def prun (env : PEnv) : Term × List PEv :=
  match getInputE env.tokenInput true with
  | Except.error _ => (Term.failed Err.missingWorkflowToken, [])
  | Except.ok tok =>
    let access := getOptInput env.accessInput
    match getInputE env.agentInput true with
    | Except.error _ => (Term.failed Err.missingAgent, [])
    | Except.ok agent =>
      let agentModel := getOptInput env.agentModelInput
      let o := oidcResult env
      let infos := [PEv.infoPreparing agent, PEv.infoRepository, PEv.infoBaseBranch]
      let outs := [PEv.setOutput wetOut tok, PEv.setOutput agentOut agent,
        PEv.setOutput agentModelOut agentModel,
        PEv.setOutput obtainedOut (if o.2 ≠ [] then trueStr else falseStr)]
      let linkEvs := if access ≠ [] ∧ tok ≠ [] then linkPTrace env else []
      (Term.success, o.1 ++ infos ++ outs ++ linkEvs ++ [PEv.infoPreparationComplete])

end Prepare

section ConcreteEnvironments

open Postprocess Prepare

/-- A successful link response `{success: true, message: ""}` with
status 200. -/
def okLink : CallOutcome LinkBody :=
  Except.ok ⟨200, ParseOutcome.ok ⟨true, []⟩⟩

/-- A benign postprocess environment: inputs present, every external call
succeeding, empty listings. Claim-specific environments override single
fields of it. -/
def baseEnv : Postprocess.Env where
  tokenInput := some ("tok".data)
  accessInput := some ("acc".data)
  baseBranchInput := none
  modeInput := none
  runId := ("7".data)
  linkCall := okLink
  branchCmdThrows := false
  branchListing := []
  branchPost := Except.ok ⟨200, ParseOutcome.ok ⟨true, [], []⟩⟩
  planLsThrows := false
  planLsLines := []
  planRead := fun _ => Except.ok []
  planPost := fun _ => Except.ok ⟨200, ParseOutcome.ok ⟨true, []⟩⟩

/-- A benign prepare environment: required inputs present, OIDC available,
exchange and link succeeding. -/
def pBaseEnv : Prepare.PEnv where
  tokenInput := some ("tok".data)
  accessInput := some ("acc".data)
  baseBranchInput := none
  agentInput := some ("claude".data)
  agentModelInput := none
  runId := ("7".data)
  oidc := Except.ok ("oidc".data)
  exchangeCall := Except.ok ⟨200, ParseOutcome.ok ⟨true, ("ghs".data)⟩⟩
  linkCall := okLink

/-- Postprocess invoked with the workflow token input unset. -/
def envC1a : Postprocess.Env := { baseEnv with tokenInput := none }

/-- Postprocess invoked with the workflow token input set to the empty
string. -/
def envC1b : Postprocess.Env := { baseEnv with tokenInput := some [] }

/-- Postprocess invoked with the workflow token input set to one space. -/
def envC1c : Postprocess.Env := { baseEnv with tokenInput := some [ ' ' ] }

/-- Postprocess whose link call returns status 200 with a body that
`JSON.parse` rejects. -/
def envC2 : Postprocess.Env :=
  { baseEnv with linkCall := Except.ok ⟨200, ParseOutcome.malformed⟩ }

/-- Postprocess whose link call returns status 500. -/
def envC2w : Postprocess.Env :=
  { baseEnv with linkCall := Except.ok ⟨500, ParseOutcome.malformed⟩ }

/-- Postprocess invoked in plan mode. -/
def envC5 : Postprocess.Env := { baseEnv with modeInput := some planStr }

/-- Postprocess whose branch-listing command throws. -/
def envC6 : Postprocess.Env := { baseEnv with branchCmdThrows := true }

/-- Postprocess in plan mode with two discovered plan files, the read of
the first of which throws. -/
def envC7 : Postprocess.Env :=
  { baseEnv with
    modeInput := some planStr
    planLsLines := [ ("PLAN-1.yaml".data), ("PLAN-2.yaml".data) ]
    planRead := fun i => if i = 0 then Except.error () else Except.ok ("content".data) }

/-- Prepare invoked with the workflow token input unset. -/
def envC3 : Prepare.PEnv := { pBaseEnv with tokenInput := none }

/-- Prepare invoked with the workflow token input set to one space. -/
def envC3w : Prepare.PEnv := { pBaseEnv with tokenInput := some [ ' ' ] }

/-- Prepare whose exchange call returns status 200 with a body that
`JSON.parse` rejects, and with no access token (so no link step runs). -/
def envC8 : Prepare.PEnv :=
  { pBaseEnv with
    accessInput := none
    exchangeCall := Except.ok ⟨200, ParseOutcome.malformed⟩ }

/-- Prepare whose exchange call returns status 503. -/
def envC8w : Prepare.PEnv :=
  { pBaseEnv with exchangeCall := Except.ok ⟨503, ParseOutcome.ok ⟨true, ("g".data)⟩⟩ }

end ConcreteEnvironments

/-! Helper lemmas about the string processing. -/

theorem splitOnChar_ne_nil (sep : Char) (s : Str) : splitOnChar sep s ≠ [] := by
  induction s with
  | nil => simp [splitOnChar]
  | cons c cs ih =>
    simp only [splitOnChar]
    split
    · simp
    · cases h : splitOnChar sep cs <;> simp

theorem splitOnChar_no_sep {sep : Char} : ∀ {s : Str}, sep ∉ s → splitOnChar sep s = [s] := by
  intro s h
  induction s with
  | nil => rfl
  | cons c cs ih =>
    have hc : ¬ c = sep := fun he => h (he ▸ List.mem_cons_self c cs)
    have hcs : sep ∉ cs := fun hm => h (List.mem_cons_of_mem _ hm)
    simp only [splitOnChar, if_neg hc, ih hcs]

theorem splitOnChar_append {sep : Char} {rest : Str} :
    ∀ {x : Str}, sep ∉ x → splitOnChar sep (x ++ sep :: rest) = x :: splitOnChar sep rest := by
  intro x h
  induction x with
  | nil => simp [splitOnChar]
  | cons c cs ih =>
    have hc : ¬ c = sep := fun he => h (he ▸ List.mem_cons_self c cs)
    have hcs : sep ∉ cs := fun hm => h (List.mem_cons_of_mem _ hm)
    simp only [List.cons_append, splitOnChar, if_neg hc]
    rw [List.append_eq, ih hcs]

theorem dropWhile_all_false {p : Char → Bool} : ∀ {s : Str}, (∀ c ∈ s, p c = false) →
    s.dropWhile p = s := by
  intro s h
  cases s with
  | nil => rfl
  | cons c cs => simp [List.dropWhile_cons, h c (List.mem_cons_self c cs)]

theorem trimStr_noWs {s : Str} (h : ∀ c ∈ s, c.isWhitespace = false) : trimStr s = s := by
  unfold trimStr
  rw [dropWhile_all_false h,
    dropWhile_all_false (fun c hc => h c (List.mem_reverse.mp hc)), List.reverse_reverse]

theorem trimStr_append_ws {s : Str} {c : Char} (hc : c.isWhitespace = true) :
    trimStr (s ++ [c]) = trimStr s := by
  unfold trimStr
  rw [List.dropWhile_append]
  by_cases h : (s.dropWhile Char.isWhitespace).isEmpty = true
  · have h2 : s.dropWhile Char.isWhitespace = [] := by simpa [List.isEmpty_iff] using h
    simp [h, h2, List.dropWhile_cons, hc]
  · rw [if_neg h, List.reverse_append]
    simp [List.dropWhile_cons, hc]

theorem linesRaw_eq_joinSep : ∀ {lines : List Str}, lines ≠ [] →
    linesRaw lines = joinSep lines ++ [ '\n' ] := by
  intro lines h
  induction lines with
  | nil => cases h rfl
  | cons x t ih =>
    cases t with
    | nil => simp [linesRaw, joinSep]
    | cons y tt =>
      have h2 := ih (by simp)
      simp only [linesRaw, List.map_cons, List.flatten_cons, joinSep] at h2 ⊢
      rw [h2]
      simp

theorem joinSep_ne_nil {x : Str} {t : List Str} (hx : x ≠ []) : joinSep (x :: t) ≠ [] := by
  cases t with
  | nil => simpa [joinSep] using hx
  | cons y tt => cases x with
    | nil => cases hx rfl
    | cons c cs => simp [joinSep]

theorem dropWhile_joinSep {x : Str} {t : List Str} (hwf : wfLines (x :: t)) :
    (joinSep (x :: t)).dropWhile Char.isWhitespace = joinSep (x :: t) := by
  obtain ⟨hx, hxc⟩ := hwf x (List.mem_cons_self x t)
  cases x with
  | nil => cases hx rfl
  | cons c cs =>
    have hc : c.isWhitespace = false := hxc c (List.mem_cons_self c cs)
    cases t with
    | nil => simp [joinSep, List.dropWhile_cons, hc]
    | cons y tt => simp [joinSep, List.dropWhile_cons, hc]

theorem reverse_joinSep_head : ∀ {t : List Str} {x : Str}, wfLines (x :: t) →
    ∃ c r, (joinSep (x :: t)).reverse = c :: r ∧ c.isWhitespace = false := by
  intro t
  induction t with
  | nil =>
    intro x hwf
    obtain ⟨hx, hxc⟩ := hwf x (List.mem_cons_self x [])
    cases hr : x.reverse with
    | nil => cases hx (by simpa using congrArg List.reverse hr)
    | cons c r =>
      exact ⟨c, r, by simpa [joinSep] using hr,
        hxc c (List.mem_reverse.mp (hr ▸ List.mem_cons_self c r))⟩
  | cons y tt ih =>
    intro x hwf
    have hwf2 : wfLines (y :: tt) := fun l hl => hwf l (List.mem_cons_of_mem _ hl)
    obtain ⟨c, r, hr, hc⟩ := ih hwf2
    refine ⟨c, r ++ '\n' :: x.reverse, ?_, hc⟩
    have : joinSep (x :: y :: tt) = x ++ '\n' :: joinSep (y :: tt) := rfl
    rw [this, List.reverse_append]
    simp [hr]

theorem trimStr_joinSep {lines : List Str} (hwf : wfLines lines) (h : lines ≠ []) :
    trimStr (joinSep lines) = joinSep lines := by
  cases lines with
  | nil => cases h rfl
  | cons x t =>
    unfold trimStr
    rw [dropWhile_joinSep hwf]
    obtain ⟨c, r, hr, hc⟩ := reverse_joinSep_head hwf
    rw [hr, List.dropWhile_cons, if_neg (by simp [hc]), ← hr, List.reverse_reverse]

theorem splitOnChar_joinSep : ∀ {lines : List Str}, lines ≠ [] →
    (∀ l ∈ lines, '\n' ∉ l) → splitOnChar '\n' (joinSep lines) = lines := by
  intro lines h hnl
  induction lines with
  | nil => cases h rfl
  | cons x t ih =>
    cases t with
    | nil => simpa [joinSep] using splitOnChar_no_sep (hnl x (List.mem_cons_self x []))
    | cons y tt =>
      have : joinSep (x :: y :: tt) = x ++ '\n' :: joinSep (y :: tt) := rfl
      rw [this, splitOnChar_append (hnl x (List.mem_cons_self _ _)),
        ih (by simp) (fun l hl => hnl l (List.mem_cons_of_mem _ hl))]

theorem wf_no_newline {l : Str} (h : ∀ c ∈ l, c.isWhitespace = false) : '\n' ∉ l := by
  intro hm
  have := h '\n' hm
  simp at this

theorem processParts {lines : List Str} (hwf : wfLines lines) (hne : lines ≠ []) :
    trimStr (linesRaw lines) = joinSep lines ∧ joinSep lines ≠ [] ∧
      ((splitOnChar '\n' (joinSep lines)).map trimStr).filter (fun x => x ≠ []) = lines := by
  refine ⟨?_, ?_, ?_⟩
  · rw [linesRaw_eq_joinSep hne, trimStr_append_ws (by decide), trimStr_joinSep hwf hne]
  · cases lines with
    | nil => cases hne rfl
    | cons x t => exact joinSep_ne_nil (hwf x (List.mem_cons_self x t)).1
  · rw [splitOnChar_joinSep hne (fun l hl => wf_no_newline (hwf l hl).2),
      List.map_congr_left (fun l hl => trimStr_noWs (hwf l hl).2)]
    simp only [List.map_id']
    rw [List.filter_eq_self.mpr (fun l hl => by simpa using (hwf l hl).1)]

theorem processOutput_linesRaw : ∀ {lines : List Str}, wfLines lines →
    processOutput (linesRaw lines) = lines := by
  intro lines hwf
  cases lines with
  | nil => rfl
  | cons x t =>
    have hne : x :: t ≠ [] := by simp
    obtain ⟨h1, h2, h3⟩ := processParts hwf hne
    unfold processOutput
    rw [h1, if_neg h2, h3]

theorem detectBranchesFn_eq {listing : List Str} {baseInput : Str} (hwf : wfLines listing) :
    detectBranchesFn listing baseInput =
      (grepExclude (if baseInput = [] then mainStr else baseInput) listing).take 20 := by
  unfold detectBranchesFn
  exact processOutput_linesRaw (fun l hl =>
    hwf l (List.mem_filter.mp (List.take_subset _ _ hl)).1)

/-! Helper lemmas about the BRE matcher. -/

theorem runMatch_nilStates : ∀ s : Str, runMatch [] s = false := by
  intro s
  induction s with
  | nil => rfl
  | cons c cs ih => simpa [runMatch] using ih

theorem runMatch_litPat : ∀ (l pat : Str), runMatch [litPat pat] l = decide (l = pat) := by
  intro l
  induction l with
  | nil =>
    intro pat
    cases pat with
    | nil => simp [runMatch, litPat, nullablePat]
    | cons p pr => simp [runMatch, litPat, nullablePat]
  | cons c cs ih =>
    intro pat
    cases pat with
    | nil => simp [runMatch, litPat, consume, runMatch_nilStates]
    | cons p pr =>
      by_cases hpc : p = c
      · subst hpc
        have e1 : runMatch [litPat (p :: pr)] (p :: cs) = runMatch [litPat pr] cs := by
          show runMatch [(Atom.lit p, false) :: litPat pr] (p :: cs) = _
          simp [runMatch, consume, atomMatch]
        rw [e1, ih pr]
        simp
      · simp [runMatch, litPat, consume, atomMatch, hpc, runMatch_nilStates, Ne.symm hpc]

theorem parsePat_cons {c : Char} {rest : Str} (h1 : c ≠ '\\') (h2 : ∀ r, rest ≠ '*' :: r) :
    parsePat (c :: rest) = (mkAtom c, false) :: parsePat rest := by
  cases rest with
  | nil => simp [parsePat, h1]
  | cons d r =>
    by_cases hd : d = '*'
    · exact absurd (hd ▸ rfl) (h2 r)
    · simp [parsePat, h1, hd]

theorem parsePat_noMeta : ∀ {s : Str}, (∀ c ∈ s, c ≠ '\\' ∧ c ≠ '.' ∧ c ≠ '*') →
    parsePat s = litPat s := by
  intro s
  induction s with
  | nil => intro h; rfl
  | cons c cs ih =>
    intro h
    have hc := h c (List.mem_cons_self _ _)
    have hcs : ∀ d ∈ cs, d ≠ '\\' ∧ d ≠ '.' ∧ d ≠ '*' :=
      fun d hd => h d (List.mem_cons_of_mem _ hd)
    have hstar : ∀ r, cs ≠ '*' :: r := by
      intro r hr
      exact (hcs '*' (hr ▸ List.mem_cons_self _ _)).2.2 rfl
    rw [parsePat_cons hc.1 hstar, ih hcs]
    simp [litPat, mkAtom, hc.2.1]

/-- For a base branch free of BRE metacharacters, the anchored grep pattern
matches a line exactly when the line equals the base branch. -/
theorem breFullMatch_noMeta {base : Str} (h : noMeta base) (l : Str) :
    breFullMatch base l = decide (l = base) := by
  unfold breFullMatch
  rw [parsePat_noMeta (fun c hc =>
    ⟨((h c hc).2.2.1 : c ≠ '\\'), (h c hc).1, (h c hc).2.1⟩)]
  exact runMatch_litPat l base

/-- For a metacharacter-free base branch, grep exclusion is exclusion by
string equality. -/
theorem grepExclude_noMeta {base : Str} (h : noMeta base) (lines : List Str) :
    grepExclude base lines = lines.filter (fun l => l ≠ base) := by
  unfold grepExclude
  refine List.filter_congr (fun l _ => ?_)
  rw [breFullMatch_noMeta h l]
  by_cases he : l = base <;> simp [he]

/-! Helper lemmas about the event traces. -/

namespace Postprocess

theorem linkTrace_class (env : Env) :
    ∀ e ∈ linkTrace env, isBranchEv e = false ∧ isPlanEv e = false := by
  unfold linkTrace
  rcases env.linkCall with _ | ⟨st, pb⟩
  · intro e he
    simp at he
    subst he
    exact ⟨rfl, rfl⟩
  · rcases pb with _ | b
    · by_cases hs : st = 200 <;>
        intro e he <;> simp [hs] at he <;> rcases he with rfl | rfl <;> exact ⟨rfl, rfl⟩
    · by_cases hs : st = 200 <;> by_cases hb : b.success = true <;>
        intro e he <;> simp [hs, hb] at he <;> rcases he with rfl | rfl <;> exact ⟨rfl, rfl⟩

theorem planFileTrace_class (env : Env) (i : Nat) (f : Str) :
    ∀ e ∈ planFileTrace env i f, isBranchEv e = false ∧ isPlanEv e = true := by
  unfold planFileTrace
  rcases env.planRead i with _ | content
  · intro e he
    simp at he
    rcases he with rfl | rfl <;> exact ⟨rfl, rfl⟩
  · rcases env.planPost i with _ | ⟨st, pb⟩
    · intro e he
      simp at he
      rcases he with rfl | rfl | rfl <;> exact ⟨rfl, rfl⟩
    · rcases pb with _ | b
      · by_cases hs : st = 200 <;>
          intro e he <;> simp [hs] at he <;> rcases he with rfl | rfl | rfl <;> exact ⟨rfl, rfl⟩
      · by_cases hs : st = 200 <;> by_cases hb : b.success = true <;>
          intro e he <;> simp [hs, hb] at he <;> rcases he with rfl | rfl | rfl <;>
          exact ⟨rfl, rfl⟩

theorem planTrace_class (env : Env) :
    ∀ e ∈ planTrace env, isBranchEv e = false ∧ isPlanEv e = true := by
  unfold planTrace
  by_cases ht : env.planLsThrows = true
  · intro e he
    simp [ht] at he
    rcases he with rfl | rfl <;> exact ⟨rfl, rfl⟩
  · simp only [ht]
    by_cases hz : trimStr (linesRaw env.planLsLines) = []
    · intro e he
      simp [hz] at he
      rcases he with rfl | rfl <;> exact ⟨rfl, rfl⟩
    · intro e he
      simp [hz] at he
      rcases he with rfl | ⟨i, f, _, hp⟩
      · exact ⟨rfl, rfl⟩
      · exact planFileTrace_class env i f e hp

theorem branchTrace_class (env : Env) (b : Str) :
    ∀ e ∈ branchTrace env b, isPlanEv e = false := by
  unfold branchTrace
  by_cases hc : env.branchCmdThrows = true
  · intro e he
    simp [hc] at he
    rcases he with rfl | rfl <;> rfl
  · simp only [hc]
    rcases env.branchPost with _ | ⟨st, pb⟩
    · intro e he
      simp at he
      rcases he with rfl | rfl | rfl | rfl <;> rfl
    · rcases pb with _ | rb
      · by_cases hs : st = 200 <;>
          intro e he <;> simp [hs] at he <;> rcases he with rfl | rfl | rfl | rfl <;> rfl
      · by_cases hs : st = 200 <;> by_cases hb : rb.success = true <;>
          by_cases hp : rb.registered_pull_requests = [] <;>
          intro e he <;> simp [hs, hb, hp] at he <;>
          rcases he with rfl | rfl | rfl | rfl | rfl <;> rfl

/-- Unfolding of `run` when the workflow token input is absent or empty:
`getInput` throws and the top-level catch sets the failed state. -/
theorem run_err_token {env : Env}
    (h : getInputE env.tokenInput true = Except.error ()) :
    run env = (Term.failed Err.missingWorkflowToken, []) := by
  unfold run
  rw [h]

/-- Unfolding of `run` when the workflow token trims to empty: the early
non-fatal return. -/
theorem run_empty_token {env : Env} {tok : Str}
    (h1 : getInputE env.tokenInput true = Except.ok tok) (h2 : tok = []) :
    run env = (Term.success, [Ev.warnNoTaskToken]) := by
  unfold run
  rw [h1]
  simp [h2]

/-- Unfolding of `run` when the access token input is absent or empty. -/
theorem run_err_access {env : Env} {tok : Str}
    (h1 : getInputE env.tokenInput true = Except.ok tok) (h2 : tok ≠ [])
    (h3 : getInputE env.accessInput true = Except.error ()) :
    run env = (Term.failed Err.missingAccessToken, []) := by
  unfold run
  rw [h1]
  simp only [h2, if_neg, ite_false]
  rw [h3]

/-- Unfolding of `run` when both required inputs are supplied and the
workflow token does not trim to empty. -/
theorem run_eq {env : Env} {tok acc : Str}
    (h1 : getInputE env.tokenInput true = Except.ok tok) (h2 : tok ≠ [])
    (h3 : getInputE env.accessInput true = Except.ok acc) :
    run env = ((match linkThrown env with
        | some e => Term.failed e
        | none => Term.success),
      if effMode env = planStr then Ev.infoModePlan :: (linkTrace env ++ planTrace env)
      else Ev.infoModeDevelop ::
        (linkTrace env ++ branchTrace env (getOptInput env.baseBranchInput))) := by
  unfold run
  rw [h1]
  simp only [h2, if_neg, ite_false]
  rw [h3]
  by_cases hm : effMode env = planStr <;> simp [hm]

end Postprocess

namespace Prepare

/-- Unfolding of `prun` when both required inputs are supplied. -/
theorem prun_eq {env : PEnv} {tok agent : Str}
    (h1 : getInputE env.tokenInput true = Except.ok tok)
    (h2 : getInputE env.agentInput true = Except.ok agent) :
    prun env = (Term.success,
      (oidcResult env).1 ++
      [PEv.infoPreparing agent, PEv.infoRepository, PEv.infoBaseBranch] ++
      [PEv.setOutput wetOut tok, PEv.setOutput agentOut agent,
        PEv.setOutput agentModelOut (getOptInput env.agentModelInput),
        PEv.setOutput obtainedOut (if (oidcResult env).2 ≠ [] then trueStr else falseStr)] ++
      (if getOptInput env.accessInput ≠ [] ∧ tok ≠ [] then linkPTrace env else []) ++
      [PEv.infoPreparationComplete]) := by
  unfold prun
  rw [h1, h2]

end Prepare

/-! Claim theorems. -/

open Postprocess Prepare

/-- C1: the specification claims that an absent or empty
`devbird_workflow_execution_token` input leads to an early non-fatal return
(logging only) with a success terminal state. The code disagrees: `getInput`
with `required: true` throws on an absent or empty raw value, so the
top-level catch sets a failed terminal state; only a whitespace-only value
(one that trims to empty) reaches the early-return branch and its warning. -/
theorem c1_absent_token_fatal :
    Postprocess.run envC1a = (Term.failed Err.missingWorkflowToken, [])
    ∧ Postprocess.run envC1b = (Term.failed Err.missingWorkflowToken, [])
    ∧ Postprocess.run envC1c = (Term.success, [Ev.warnNoTaskToken]) :=
  ⟨by decide, by decide, by decide⟩

/-- C10: base-branch exclusion is regex-based, not equality-based: for the
baseBranch value `v1.x`, whose dot is a BRE metacharacter, the branch
`v1bx` - a different string - also matches the anchored grep pattern and is
excluded from the resulting BranchSet. -/
theorem c10_regex_exclusion :
    breFullMatch ("v1.x".data) ("v1bx".data) = true
    ∧ ("v1bx".data) ≠ ("v1.x".data)
    ∧ detectBranchesFn [ ("v1bx".data), ("other".data) ] ("v1.x".data) =
        [ ("other".data) ] :=
  ⟨by decide, by decide, by decide⟩

/-- C4 counterexample: the claim reads branch detection as excluding the
branch equal to baseBranch, for every baseBranch input. For baseBranch
`v1.x` the non-equal branch `v1ax` is also excluded, so the result differs
from the listing with only the base branch removed. -/
theorem c4_counterexample :
    detectBranchesFn [ ("v1ax".data), ("feature".data) ] ("v1.x".data) =
      [ ("feature".data) ]
    ∧ ("v1ax".data) ≠ ("v1.x".data)
    ∧ (([ ("v1ax".data), ("feature".data) ] : List Str).filter
        (fun l => l ≠ ("v1.x".data))).take 20 =
        [ ("v1ax".data), ("feature".data) ] :=
  ⟨by decide, by decide, by decide⟩

/-- C4 (amended): for every well-formed local branch listing and every
baseBranch input (default `main` when empty), branch detection returns the
listed lines with every line matching the anchored BRE pattern built from
baseBranch excluded, truncated to the first 20 remaining lines, in
insertion order (trimming and empty-entry dropping are no-ops on
well-formed listings); when baseBranch is free of BRE metacharacters the
exclusion is plain string equality. -/
theorem c4_branch_detection {listing : List Str} {baseInput : Str} (hwf : wfLines listing) :
    detectBranchesFn listing baseInput =
      (grepExclude (if baseInput = [] then mainStr else baseInput) listing).take 20
    ∧ (detectBranchesFn listing baseInput).length ≤ 20
    ∧ (noMeta (if baseInput = [] then mainStr else baseInput) →
        detectBranchesFn listing baseInput =
          (listing.filter
            (fun l => l ≠ (if baseInput = [] then mainStr else baseInput))).take 20) := by
  refine ⟨detectBranchesFn_eq hwf, ?_, ?_⟩
  · rw [detectBranchesFn_eq hwf]
    exact List.length_take_le _ _
  · intro h
    rw [detectBranchesFn_eq hwf, grepExclude_noMeta h]

/-- Witness for C4 at the specification's own example: branches
`main, feature-a, feature-b` with an unset base branch give exactly
`feature-a, feature-b`. -/
theorem c4_branch_detection_witness :
    detectBranchesFn [ ("main".data), ("feature-a".data), ("feature-b".data) ] [] =
      [ ("feature-a".data), ("feature-b".data) ] := by
  have h := @c4_branch_detection
    [ ("main".data), ("feature-a".data), ("feature-b".data) ] [] (by decide)
  rw [h.2.2 (by decide)]
  decide

/-- C2 counterexample: with both required inputs present, a link response
with status 200 and a body `JSON.parse` rejects is not converted to a
warning: `linkGitHubAction` has no try/catch, the exception reaches the
top-level catch and the terminal state is failed, not success. -/
theorem c2_counterexample :
    (Postprocess.run envC2).1 = Term.failed Err.linkParseFailed := by decide

/-- C2 (amended): in the postprocess Task Linker a non-200 status or a 200
response whose parsed body has success false is converted to a warning and
the invocation still ends in a success terminal state; but a thrown
exception during the link call (a thrown HTTP call, or a malformed JSON
body of a 200 response) is not caught and sets the failed terminal state. -/
theorem c2_link_failure_handling {env : Postprocess.Env} {tok acc : Str}
    (h1 : getInputE env.tokenInput true = Except.ok tok) (h2 : tok ≠ [])
    (h3 : getInputE env.accessInput true = Except.ok acc) :
    (∀ r, env.linkCall = Except.ok r → r.status ≠ 200 →
      (Postprocess.run env).1 = Term.success
      ∧ Ev.warnLinkFailedStatus ∈ (Postprocess.run env).2)
    ∧ (∀ r b, env.linkCall = Except.ok r → r.status = 200 →
        r.parsed = ParseOutcome.ok b → b.success = false →
        (Postprocess.run env).1 = Term.success
        ∧ Ev.warnLinkFailed b.message ∈ (Postprocess.run env).2)
    ∧ (env.linkCall = Except.error () →
        (Postprocess.run env).1 = Term.failed Err.linkHttpThrown)
    ∧ (∀ r, env.linkCall = Except.ok r → r.status = 200 →
        r.parsed = ParseOutcome.malformed →
        (Postprocess.run env).1 = Term.failed Err.linkParseFailed) := by
  have hrun := run_eq h1 h2 h3
  refine ⟨?_, ?_, ?_, ?_⟩
  · intro r hr hs
    have hlt : linkThrown env = none := by simp [linkThrown, hr, hs]
    have hw : Ev.warnLinkFailedStatus ∈ linkTrace env := by simp [linkTrace, hr, hs]
    rw [hrun]
    refine ⟨by simp [hlt], ?_⟩
    by_cases hm : effMode env = planStr <;> simp [hm, hw]
  · intro r b hr hs hp hb
    have hlt : linkThrown env = none := by simp [linkThrown, hr, hs, hp]
    have hw : Ev.warnLinkFailed b.message ∈ linkTrace env := by
      simp [linkTrace, hr, hs, hp, hb]
    rw [hrun]
    refine ⟨by simp [hlt], ?_⟩
    by_cases hm : effMode env = planStr <;> simp [hm, hw]
  · intro hr
    have hlt : linkThrown env = some Err.linkHttpThrown := by simp [linkThrown, hr]
    rw [hrun]
    simp [hlt]
  · intro r hr hs hp
    have hlt : linkThrown env = some Err.linkParseFailed := by
      simp [linkThrown, hr, hs, hp]
    rw [hrun]
    simp [hlt]

/-- No branch-step event can occur in a plan-mode trace. -/
theorem no_branch_ev_in_plan_trace (env : Postprocess.Env) {e : Ev}
    (he : isBranchEv e = true) :
    e ∉ Ev.infoModePlan :: (linkTrace env ++ planTrace env) := by
  intro hmem
  rcases List.mem_cons.mp hmem with h | h
  · subst h
    simp [isBranchEv] at he
  · rcases List.mem_append.mp h with h | h
    · rw [(linkTrace_class env e h).1] at he
      exact Bool.false_ne_true he
    · rw [(planTrace_class env e h).1] at he
      exact Bool.false_ne_true he

/-- No plan-step event can occur in a develop-mode trace. -/
theorem no_plan_ev_in_develop_trace (env : Postprocess.Env) (b : Str) {e : Ev}
    (he : isPlanEv e = true) :
    e ∉ Ev.infoModeDevelop :: (linkTrace env ++ branchTrace env b) := by
  intro hmem
  rcases List.mem_cons.mp hmem with h | h
  · subst h
    simp [isPlanEv] at he
  · rcases List.mem_append.mp h with h | h
    · rw [(linkTrace_class env e h).2] at he
      exact Bool.false_ne_true he
    · rw [branchTrace_class env b e h] at he
      exact Bool.false_ne_true he

/-- C5: mode selection in postprocess is mutually exclusive with default
develop: no invocation runs both scans; when the effective mode is `plan`,
branch detection never runs and no branch registration is posted; when it
is anything else (including the unset default `develop`), plan-file
handling never runs and no plan upload is posted. -/
theorem c5_mode_exclusive (env : Postprocess.Env) :
    ¬(Ev.infoDetectingBranches ∈ (Postprocess.run env).2
      ∧ Ev.infoDetectingPlanFiles ∈ (Postprocess.run env).2)
    ∧ (effMode env = planStr →
        Ev.infoDetectingBranches ∉ (Postprocess.run env).2
        ∧ ∀ bs, Ev.postRegisterBranches bs ∉ (Postprocess.run env).2)
    ∧ (effMode env ≠ planStr →
        Ev.infoDetectingPlanFiles ∉ (Postprocess.run env).2
        ∧ ∀ f c, Ev.postUploadPlan f c ∉ (Postprocess.run env).2) := by
  rcases h1 : getInputE env.tokenInput true with a | tok
  · cases a
    rw [run_err_token h1]
    simp
  · by_cases h2 : tok = []
    · rw [run_empty_token h1 h2]
      simp
    · rcases h3 : getInputE env.accessInput true with a | acc
      · cases a
        rw [run_err_access h1 h2 h3]
        simp
      · rw [run_eq h1 h2 h3]
        by_cases hm : effMode env = planStr
        · rw [if_pos hm]
          exact ⟨fun hb => no_branch_ev_in_plan_trace env (by rfl) hb.1,
            fun _ => ⟨no_branch_ev_in_plan_trace env (by rfl),
              fun bs => no_branch_ev_in_plan_trace env (by rfl)⟩,
            fun hc => absurd hm hc⟩
        · rw [if_neg hm]
          exact ⟨fun hb => no_plan_ev_in_develop_trace env _ (by rfl) hb.2,
            fun hp => absurd hp hm,
            fun _ => ⟨no_plan_ev_in_develop_trace env _ (by rfl),
              fun f c => no_plan_ev_in_develop_trace env _ (by rfl)⟩⟩

/-- Witness for C5 at a concrete plan-mode invocation: branch detection is
never started. -/
theorem c5_mode_exclusive_witness :
    Ev.infoDetectingBranches ∉ (Postprocess.run envC5).2 :=
  ((c5_mode_exclusive envC5).2.1 (by decide)).1

/-- C6: a thrown branch-listing command in postprocess is caught by the
surrounding try/catch: the invocation warns, registers no branches
(the detected BranchSet is empty) and still ends in a success terminal
state, provided the link call itself does not throw. -/
theorem c6_branch_cmd_failure {env : Postprocess.Env} {tok acc : Str}
    (h1 : getInputE env.tokenInput true = Except.ok tok) (h2 : tok ≠ [])
    (h3 : getInputE env.accessInput true = Except.ok acc)
    (hm : effMode env ≠ planStr)
    (hc : env.branchCmdThrows = true)
    (hl : linkThrown env = none) :
    (Postprocess.run env).1 = Term.success
    ∧ Ev.warnBranchError ∈ (Postprocess.run env).2
    ∧ ∀ bs, Ev.postRegisterBranches bs ∉ (Postprocess.run env).2 := by
  have hrun := run_eq h1 h2 h3
  rw [hrun]
  refine ⟨by simp [hl], ?_, ?_⟩
  · rw [if_neg hm]
    have hw : Ev.warnBranchError ∈ branchTrace env (getOptInput env.baseBranchInput) := by
      simp [branchTrace, hc]
    simp [hw]
  · intro bs
    rw [if_neg hm]
    intro hmem
    rcases List.mem_cons.mp hmem with h | h
    · simp at h
    · rcases List.mem_append.mp h with h | h
      · have hb := (linkTrace_class env _ h).1
        simp [isBranchEv] at hb
      · simp [branchTrace, hc] at h

/-- Witness for C6 at a concrete invocation whose branch command throws:
the warning is logged and the terminal state is success. -/
theorem c6_branch_cmd_failure_witness :
    (Postprocess.run envC6).1 = Term.success
    ∧ Ev.warnBranchError ∈ (Postprocess.run envC6).2 := by
  have h := @c6_branch_cmd_failure envC6 ("tok".data) ("acc".data)
    (by decide) (by decide) (by decide) (by decide) (by decide) (by decide)
  exact ⟨h.1, h.2.1⟩

/-- C7: plan-file processing is isolated per file: with a well-formed file
listing, an empty listing is reported informationally; a file whose read
throws gets its own warning; and every file whose read succeeds has its
upload posted, regardless of the other files' outcomes; the invocation
still ends in success, provided the link call does not throw. -/
theorem c7_plan_file_isolation {env : Postprocess.Env} {tok acc : Str}
    (h1 : getInputE env.tokenInput true = Except.ok tok) (h2 : tok ≠ [])
    (h3 : getInputE env.accessInput true = Except.ok acc)
    (hm : effMode env = planStr)
    (hls : env.planLsThrows = false)
    (hwf : wfLines env.planLsLines)
    (hl : linkThrown env = none) :
    (Postprocess.run env).1 = Term.success
    ∧ (env.planLsLines = [] → Ev.infoNoPlanFiles ∈ (Postprocess.run env).2)
    ∧ (∀ p ∈ env.planLsLines.enum, env.planRead p.1 = Except.error () →
        Ev.warnPlanFileError p.2 ∈ (Postprocess.run env).2)
    ∧ (∀ p ∈ env.planLsLines.enum, ∀ c, env.planRead p.1 = Except.ok c →
        Ev.postUploadPlan p.2 c ∈ (Postprocess.run env).2) := by
  have hrun := run_eq h1 h2 h3
  rw [hrun]
  refine ⟨by simp [hl], ?_, ?_, ?_⟩
  · intro hnil
    have hp : planTrace env = [Ev.infoDetectingPlanFiles, Ev.infoNoPlanFiles] := by
      simp [planTrace, hls, hnil, linesRaw, trimStr]
    rw [if_pos hm]
    simp [hp]
  · intro p hp hrd
    have hne : env.planLsLines ≠ [] := by
      intro h0
      rw [h0] at hp
      simp at hp
    obtain ⟨hp1, hp2, hp3⟩ := processParts hwf hne
    have hplan : planTrace env = Ev.infoDetectingPlanFiles ::
        env.planLsLines.enum.flatMap (fun q => planFileTrace env q.1 q.2) := by
      simp only [planTrace, hls, Bool.false_eq_true, if_false, hp1, if_neg hp2, hp3]
    have hin : Ev.warnPlanFileError p.2 ∈ planFileTrace env p.1 p.2 := by
      simp [planFileTrace, hrd]
    have hin2 : Ev.warnPlanFileError p.2 ∈ planTrace env := by
      rw [hplan]
      exact List.mem_cons_of_mem _ (List.mem_flatMap.mpr ⟨p, hp, hin⟩)
    rw [if_pos hm]
    simp [hin2]
  · intro p hp c hrd
    have hne : env.planLsLines ≠ [] := by
      intro h0
      rw [h0] at hp
      simp at hp
    obtain ⟨hp1, hp2, hp3⟩ := processParts hwf hne
    have hplan : planTrace env = Ev.infoDetectingPlanFiles ::
        env.planLsLines.enum.flatMap (fun q => planFileTrace env q.1 q.2) := by
      simp only [planTrace, hls, Bool.false_eq_true, if_false, hp1, if_neg hp2, hp3]
    have hin : Ev.postUploadPlan p.2 c ∈ planFileTrace env p.1 p.2 := by
      simp [planFileTrace, hrd]
    have hin2 : Ev.postUploadPlan p.2 c ∈ planTrace env := by
      rw [hplan]
      exact List.mem_cons_of_mem _ (List.mem_flatMap.mpr ⟨p, hp, hin⟩)
    rw [if_pos hm]
    simp [hin2]

/-- Witness for C7 at a concrete two-file invocation whose first file read
throws: the first file gets its warning and the second is still uploaded. -/
theorem c7_plan_file_isolation_witness :
    Ev.warnPlanFileError ("PLAN-1.yaml".data) ∈ (Postprocess.run envC7).2
    ∧ Ev.postUploadPlan ("PLAN-2.yaml".data) ("content".data) ∈ (Postprocess.run envC7).2 := by
  have h := @c7_plan_file_isolation envC7 ("tok".data) ("acc".data)
    (by decide) (by decide) (by decide) (by decide) (by decide) (by decide) (by decide)
  exact ⟨h.2.2.1 (0, ("PLAN-1.yaml".data)) (by decide) (by decide),
    h.2.2.2 (1, ("PLAN-2.yaml".data)) (by decide) ("content".data) (by decide)⟩

/-- Witness for C2 at a concrete 500 link response: the warning is logged
and the terminal state is success. -/
theorem c2_link_failure_handling_witness :
    (Postprocess.run envC2w).1 = Term.success
    ∧ Ev.warnLinkFailedStatus ∈ (Postprocess.run envC2w).2 := by
  have h := @c2_link_failure_handling envC2w
    ("tok".data) ("acc".data) (by decide) (by decide) (by decide)
  exact h.1 ⟨500, ParseOutcome.malformed⟩ (by decide) (by decide)

/-- The OIDC/exchange block never emits the link POST event. -/
theorem postLink_not_in_oidc (env : Prepare.PEnv) :
    PEv.postLink ∉ (oidcResult env).1 := by
  unfold oidcResult
  rcases env.oidc with _ | t
  · simp
  · rcases env.exchangeCall with _ | ⟨st, pb⟩
    · by_cases ht : t = [] <;> simp [ht]
    · rcases pb with _ | b
      · by_cases ht : t = [] <;> by_cases hs : st = 200 <;> simp [ht, hs]
      · by_cases ht : t = [] <;> by_cases hs : st = 200 <;>
          by_cases hb : b.success = true ∧ b.githubToken ≠ [] <;> simp [ht, hs, hb]

/-- C3 counterexample: invoking prepare with the
`autodev_workflow_execution_token` input absent does not skip linking and
succeed: `getInput` with `required: true` throws and the run fails. -/
theorem c3_counterexample :
    Prepare.prun envC3 = (Term.failed Err.missingWorkflowToken, []) := by decide

/-- C3 (amended): the `autodev_workflow_execution_token` input of prepare
is required: when absent or empty, the run fails with the input-validation
error. Only when the supplied value trims to empty (whitespace-only) is
the task-linking step skipped while the rest of the run completes
successfully. -/
theorem c3_prepare_token (env : Prepare.PEnv) :
    ((env.tokenInput = none ∨ env.tokenInput = some []) →
      Prepare.prun env = (Term.failed Err.missingWorkflowToken, []))
    ∧ (∀ tok agent, getInputE env.tokenInput true = Except.ok tok → tok = [] →
        getInputE env.agentInput true = Except.ok agent →
        (Prepare.prun env).1 = Term.success
        ∧ PEv.postLink ∉ (Prepare.prun env).2
        ∧ PEv.infoPreparationComplete ∈ (Prepare.prun env).2) := by
  constructor
  · intro h
    unfold Prepare.prun
    rcases h with h | h <;> simp [h, getInputE]
  · intro tok agent htok h0 hagent
    subst h0
    have hrun := prun_eq htok hagent
    rw [hrun]
    refine ⟨rfl, ?_, by simp⟩
    rw [if_neg (show ¬(getOptInput env.accessInput ≠ [] ∧ ([] : Str) ≠ []) by simp)]
    intro hmem
    simp at hmem
    exact postLink_not_in_oidc env hmem

/-- Witness for C3 at a concrete whitespace-only token: the run succeeds
and no link POST is made. -/
theorem c3_prepare_token_witness :
    (Prepare.prun envC3w).1 = Term.success
    ∧ PEv.postLink ∉ (Prepare.prun envC3w).2 := by
  have h := (c3_prepare_token envC3w).2 [] ("claude".data) (by decide) rfl (by decide)
  exact ⟨h.1, h.2.1⟩

/-- C8 counterexample: for a 200 exchange response with a malformed body,
prepare logs no warning at all (the catch logs info and debug), so the
claim that every non-200 / malformed-body / unsuccessful exchange produces
a warning fails; the credential is still absent and the run continues. -/
theorem c8_counterexample :
    ((Prepare.prun envC8).2.filter (fun e => isWarnP e)) = []
    ∧ PEv.setOutput obtainedOut falseStr ∈ (Prepare.prun envC8).2
    ∧ PEv.infoOIDCUnavailable ∈ (Prepare.prun envC8).2 :=
  ⟨by decide, by decide, by decide⟩

/-- C8 (amended): in the prepare token exchange, a non-200 status or a
parsed body without `success == true` and a non-empty token yields a
warning, an absent credential (`githubToken_obtained` output `false`) and
a successful continuation; a malformed body or a thrown exchange call is
caught by the OIDC catch, which logs informationally (no warning at all in
the block), with the same absent credential and successful continuation.
No failure of this component aborts the preparation run. -/
theorem c8_exchange_failure_handling {env : Prepare.PEnv} {tok agent o : Str}
    (h1 : getInputE env.tokenInput true = Except.ok tok)
    (h3 : getInputE env.agentInput true = Except.ok agent)
    (ho : env.oidc = Except.ok o) (hne : o ≠ []) :
    (∀ r, env.exchangeCall = Except.ok r → r.status ≠ 200 →
      PEv.warnExchangeFailedStatus r.status ∈ (Prepare.prun env).2
      ∧ (oidcResult env).2 = []
      ∧ PEv.setOutput obtainedOut falseStr ∈ (Prepare.prun env).2
      ∧ (Prepare.prun env).1 = Term.success)
    ∧ (∀ r b, env.exchangeCall = Except.ok r → r.status = 200 →
        r.parsed = ParseOutcome.ok b → ¬(b.success = true ∧ b.githubToken ≠ []) →
        PEv.warnExchangeFailedResult ∈ (Prepare.prun env).2
        ∧ (oidcResult env).2 = []
        ∧ PEv.setOutput obtainedOut falseStr ∈ (Prepare.prun env).2
        ∧ (Prepare.prun env).1 = Term.success)
    ∧ (∀ r, env.exchangeCall = Except.ok r → r.status = 200 →
        r.parsed = ParseOutcome.malformed →
        PEv.infoOIDCUnavailable ∈ (Prepare.prun env).2
        ∧ (∀ e ∈ (oidcResult env).1, isWarnP e = false)
        ∧ (oidcResult env).2 = []
        ∧ PEv.setOutput obtainedOut falseStr ∈ (Prepare.prun env).2
        ∧ (Prepare.prun env).1 = Term.success)
    ∧ (env.exchangeCall = Except.error () →
        PEv.infoOIDCUnavailable ∈ (Prepare.prun env).2
        ∧ (∀ e ∈ (oidcResult env).1, isWarnP e = false)
        ∧ (oidcResult env).2 = []
        ∧ PEv.setOutput obtainedOut falseStr ∈ (Prepare.prun env).2
        ∧ (Prepare.prun env).1 = Term.success) := by
  refine ⟨?_, ?_, ?_, ?_⟩
  · intro r hr hs
    have hoid : oidcResult env = ([PEv.infoRequestingOIDC, PEv.infoOIDCObtained,
        PEv.postExchange, PEv.warnExchangeFailedStatus r.status], []) := by
      simp [oidcResult, ho, hne, hr, hs]
    rw [prun_eq h1 h3, hoid]
    exact ⟨by simp, rfl, by simp, rfl⟩
  · intro r b hr hs hp hb
    have hoid : oidcResult env = ([PEv.infoRequestingOIDC, PEv.infoOIDCObtained,
        PEv.postExchange, PEv.warnExchangeFailedResult], []) := by
      simp [oidcResult, ho, hne, hr, hs, hp, hb]
    rw [prun_eq h1 h3, hoid]
    exact ⟨by simp, rfl, by simp, rfl⟩
  · intro r hr hs hp
    have hoid : oidcResult env = ([PEv.infoRequestingOIDC, PEv.infoOIDCObtained,
        PEv.postExchange, PEv.infoOIDCUnavailable, PEv.debugOIDCError], []) := by
      simp [oidcResult, ho, hne, hr, hs, hp]
    rw [prun_eq h1 h3, hoid]
    exact ⟨by simp, by decide, rfl, by simp, rfl⟩
  · intro hr
    have hoid : oidcResult env = ([PEv.infoRequestingOIDC, PEv.infoOIDCObtained,
        PEv.postExchange, PEv.infoOIDCUnavailable, PEv.debugOIDCError], []) := by
      simp [oidcResult, ho, hne, hr]
    rw [prun_eq h1 h3, hoid]
    exact ⟨by simp, by decide, rfl, by simp, rfl⟩

/-- Witness for C8 at a concrete 503 exchange response: the warning is
logged and the run still succeeds. -/
theorem c8_exchange_failure_handling_witness :
    PEv.warnExchangeFailedStatus 503 ∈ (Prepare.prun envC8w).2
    ∧ (Prepare.prun envC8w).1 = Term.success := by
  have h := @c8_exchange_failure_handling envC8w ("tok".data)
    ("claude".data) ("oidc".data)
    (by decide) (by decide) (by decide) (by decide)
  have h2 := h.1 ⟨503, ParseOutcome.ok ⟨true, ("g".data)⟩⟩ (by decide) (by decide)
  exact ⟨h2.1, h2.2.2.2⟩

/-- C9: for a 200 exchange response whose parsed body has `success == true`
and a non-empty `githubToken`, prepare treats the exchange as a success,
marks the token secret, and publishes it through the `github_token`
output, the `githubToken` environment export and the
`githubToken_obtained` flag set to `true`; the run ends in success. -/
theorem c9_exchange_success {env : Prepare.PEnv} {tok agent o : Str} {b : ExchangeBody}
    (h1 : getInputE env.tokenInput true = Except.ok tok)
    (h3 : getInputE env.agentInput true = Except.ok agent)
    (ho : env.oidc = Except.ok o) (hne : o ≠ [])
    (hx : env.exchangeCall = Except.ok ⟨200, ParseOutcome.ok b⟩)
    (hs : b.success = true) (hg : b.githubToken ≠ []) :
    PEv.infoExchangeSuccess ∈ (Prepare.prun env).2
    ∧ PEv.setSecret b.githubToken ∈ (Prepare.prun env).2
    ∧ PEv.exportVar ghTokenVar b.githubToken ∈ (Prepare.prun env).2
    ∧ PEv.setOutput ghTokenOut b.githubToken ∈ (Prepare.prun env).2
    ∧ PEv.setOutput obtainedOut trueStr ∈ (Prepare.prun env).2
    ∧ (Prepare.prun env).1 = Term.success := by
  have hoid : oidcResult env = ([PEv.infoRequestingOIDC, PEv.infoOIDCObtained,
      PEv.postExchange, PEv.infoExchangeSuccess, PEv.setSecret b.githubToken,
      PEv.exportVar ghTokenVar b.githubToken, PEv.setOutput ghTokenOut b.githubToken],
      b.githubToken) := by
    simp [oidcResult, ho, hne, hx, hs, hg]
  rw [prun_eq h1 h3, hoid]
  refine ⟨by simp, by simp, by simp, by simp, ?_, rfl⟩
  simp [hg]

/-- Witness for C9 at a concrete successful exchange: the secret marking
and the obtained flag are both published. -/
theorem c9_exchange_success_witness :
    PEv.setSecret ("ghs".data) ∈ (Prepare.prun pBaseEnv).2
    ∧ PEv.setOutput obtainedOut trueStr ∈ (Prepare.prun pBaseEnv).2 := by
  have h := @c9_exchange_success pBaseEnv ("tok".data)
    ("claude".data) ("oidc".data) ⟨true, ("ghs".data)⟩
    (by decide) (by decide) (by decide) (by decide) (by decide) (by decide) (by decide)
  exact ⟨h.2.1, h.2.2.2.2.1⟩

end DevBird
